import Mathlib

/-!
Verification of the RelayPlane proxy: a shallow embedding of the complexity
classifier, the SSE writer, the provider-stream relay and the streaming
aggregator, with theorems checking the specification's claims about them.

Text is embedded as `List Char` (`Str`): the classifier's regular
expressions are alternations of literal substrings, plus `p.*q` patterns
(where `.` does not match a line terminator) and `p\d` patterns, all of
which are expressed as decidable searches over character lists.
-/

set_option maxRecDepth 4000

abbrev Str := List Char

/-- Lower-case a text, mirroring `String.prototype.toLowerCase` character-wise. -/
def lowerStr (t : Str) : Str := t.map Char.toLower

/-- Does pattern `p` occur as a contiguous substring of `s`?
Mirrors a JavaScript regex test for a literal pattern. -/
def containsPat (s p : Str) : Bool :=
  (List.range (s.length + 1)).any (fun i => p.isPrefixOf (s.drop i))

/-- Does any of the literal patterns occur in `s`?  Mirrors a regex
alternation `/p1|p2|.../` of literal alternatives. -/
def containsAny (s : Str) (pats : List Str) : Bool :=
  pats.any (fun p => containsPat s p)

/-- Test for `/p.*q/`: an occurrence of `p` followed, with no line
terminator in between, by an occurrence of `q` (JavaScript `.` does not
match `\n` or `\r`). -/
def seqNoNL (s p q : Str) : Bool :=
  (List.range (s.length + 1)).any (fun i =>
    p.isPrefixOf (s.drop i) &&
    (let rest := s.drop (i + p.length)
     (List.range (rest.length + 1)).any (fun j =>
        q.isPrefixOf (rest.drop j) &&
        (rest.take j).all (fun c => !(c = '\n' || c = '\r')))))

/-- Test for `/p\d/`: an occurrence of `p` immediately followed by a digit. -/
def seqDigit (s p : Str) : Bool :=
  (List.range (s.length + 1)).any (fun i =>
    p.isPrefixOf (s.drop i) &&
    (match s.drop (i + p.length) with
     | c :: _ => c.isDigit
     | [] => false))

/-- A content block of a conversation message (`{ type?: string; text?: string }`). -/
structure Block where
  btype : Option Str
  btext : Option Str
deriving DecidableEq, Repr

/-- The `content` field of a message: a plain string, an array of content
blocks, or anything else (`undefined`, a number, ...). -/
inductive Content where
  | str (s : Str)
  | blocks (bs : List Block)
  | other
deriving DecidableEq, Repr

/-- A conversation message (`{ content?: unknown; role?: string }`). -/
structure Message where
  content : Content
  role : Option Str := none
deriving DecidableEq, Repr

def typeText : Str := "text".toList
def typeToolResult : Str := "tool_result".toList
def typeToolUse : Str := "tool_use".toList

/-- `isContentBlockArray`: `Array.isArray(v)` on the embedded content. -/
def isContentBlockArray : Content → Bool
  | .blocks _ => true
  | _ => false

/-- `extractSingleMessageText`: a plain string is returned as is; a block
array contributes its `text` blocks' texts joined with a single space;
anything else contributes the empty string. -/
def extractSingleMessageText (m : Message) : Str :=
  match m.content with
  | .str s => s
  | .blocks bs =>
      List.intercalate [' ']
        ((bs.filter (fun b => b.btype = some typeText)).map
          (fun b => b.btext.getD []))
  | .other => []

/-- `extractMessageText`: every message's text, space-joined. -/
def extractMessageText (ms : List Message) : Str :=
  List.intercalate [' '] (ms.map extractSingleMessageText)

/-- Is the message's content a block array made only of `tool_use` /
`tool_result` blocks with no `text` block?  (`content.every` on an empty
array is `true`, so an empty block array is also skipped.) -/
def isOnlyToolResultMsg (m : Message) : Bool :=
  match m.content with
  | .blocks bs =>
      (!(bs.any (fun b => b.btype = some typeText))) &&
      bs.all (fun b => b.btype = some typeToolResult || b.btype = some typeToolUse)
  | _ => false

/-- `text.trim().length > 0`: the text holds at least one non-whitespace
character. -/
def hasNonWS (t : Str) : Bool := t.any (fun c => !c.isWhitespace)

/-- The backward scan of `findLastUserText`, expressed on the reversed list. -/
def findLastUserTextRev : List Message → Str
  | [] => []
  | m :: rest =>
      if isOnlyToolResultMsg m then findLastUserTextRev rest
      else
        let t := extractSingleMessageText m
        if hasNonWS t then t else findLastUserTextRev rest

/-- `findLastUserText`: the text of the last message that has non-empty
text content, skipping pure tool_result/tool_use messages. -/
def findLastUserText (ms : List Message) : Str :=
  findLastUserTextRev ms.reverse

/-- The three complexity tiers. -/
inductive Complexity where
  | simple
  | moderate
  | complex
deriving DecidableEq, Repr

/-- Tiers in ascending resource cost, for monotonicity statements. -/
def Complexity.rank : Complexity → Nat
  | .simple => 0
  | .moderate => 1
  | .complex => 2

/-- Code patterns: `/```/` or `/function |class |const |import /` → +2. -/
def codeSignal (t : Str) : Nat :=
  if containsPat t "```".toList ||
     containsAny t ["function ".toList, "class ".toList, "const ".toList, "import ".toList]
  then 2 else 0

/-- Analytical keywords → +1. -/
def analyticalSignal (t : Str) : Nat :=
  if containsAny t ["analyze".toList, "compare".toList, "evaluate".toList,
                    "assess".toList, "review".toList, "audit".toList]
  then 1 else 0

/-- Computation keywords → +2. -/
def computationSignal (t : Str) : Nat :=
  if containsAny t ["calculate".toList, "compute".toList, "solve".toList,
                    "equation".toList, "prove".toList, "derive".toList]
  then 2 else 0

/-- Multi-step instructions: `/first.*then|step \d|1\).*2\)|phase \d/` → +1. -/
def multiStepSignal (t : Str) : Nat :=
  if seqNoNL t "first".toList "then".toList ||
     seqDigit t "step ".toList ||
     seqNoNL t "1)".toList "2)".toList ||
     seqDigit t "phase ".toList
  then 1 else 0

/-- `Math.ceil(length / 4)` on a natural length. -/
def estTokens (len : Nat) : Nat := (len + 3) / 4

/-- Current-message token size: +1 over 2000 tokens, +2 more over 5000. -/
def tokenSignal (t : Str) : Nat :=
  (if 2000 < estTokens t.length then 1 else 0) +
  (if 5000 < estTokens t.length then 2 else 0)

/-- Creative keywords: `/write a (story|essay|article|report)|create a|design a|build a/` → +1. -/
def creativeSignal (t : Str) : Nat :=
  if containsAny t ["write a story".toList, "write a essay".toList,
                    "write a article".toList, "write a report".toList,
                    "create a".toList, "design a".toList, "build a".toList]
  then 1 else 0

/-- Engineering keywords → +1. -/
def engineeringSignal (t : Str) : Nat :=
  if containsAny t ["refactor".toList, "migrate".toList, "architect".toList,
                    "implement".toList, "integrate".toList]
  then 1 else 0

/-- All current-turn signals, summed over the (already lower-cased) current text. -/
def currentTurnScore (t : Str) : Nat :=
  codeSignal t + analyticalSignal t + computationSignal t + multiStepSignal t +
  tokenSignal t + creativeSignal t + engineeringSignal t

/-- Does a message's content hold a `tool_result` or `tool_use` block? -/
def msgHasToolBlock (m : Message) : Bool :=
  match m.content with
  | .blocks bs => bs.any (fun b => b.btype = some typeToolResult || b.btype = some typeToolUse)
  | _ => false

/-- Does a message's content hold a `tool_result` block? -/
def msgHasToolResult (m : Message) : Bool :=
  match m.content with
  | .blocks bs => bs.any (fun b => b.btype = some typeToolResult)
  | _ => false

/-- `messages.slice(-6)`: the last six messages (all of them when fewer). -/
def lastSix (ms : List Message) : List Message := ms.drop (ms.length - 6)

/-- Number of messages among the last six whose content holds a
`tool_result` block (the code counts messages, not blocks). -/
def recentToolResults (ms : List Message) : Nat :=
  ((lastSix ms).filter msgHasToolResult).length

/-- Recent tool activity: +1 when at least three of the last six messages
hold a `tool_result` block. -/
def recentToolSignal (ms : List Message) : Nat :=
  if 3 ≤ recentToolResults ms then 1 else 0

/-- Tool signals from the request body and history.  `bodyTools` is the
length of the body's tools array when it is an array (`none` otherwise),
mirroring `Array.isArray(bodyTools) ? bodyTools.length : 0`. -/
def toolScore (ms : List Message) (bodyTools : Option Nat) : Nat :=
  let toolCount := bodyTools.getD 0
  let hasTools := decide (0 < toolCount) || ms.any msgHasToolBlock
  (if hasTools then 2 else 0) +
  (if 5 ≤ toolCount then 1 else 0) +
  (if 15 ≤ toolCount then 1 else 0)

/-- System-prompt size signal; `if (system)` skips both a missing and an
empty system prompt. -/
def systemSignal : Option Str → Nat
  | none => 0
  | some s =>
      if s = [] then 0
      else
        (if 3000 < estTokens s.length then 1 else 0) +
        (if 8000 < estTokens s.length then 2 else 0)

/-- All session-level signals. -/
def sessionScore (ms : List Message) (bodyTools : Option Nat) (system : Option Str) : Nat :=
  toolScore ms bodyTools + recentToolSignal ms + systemSignal system

/-- The total score with the current-turn text made explicit. -/
def scoreWithCurrentText (t : Str) (ms : List Message) (bodyTools : Option Nat)
    (system : Option Str) : Nat :=
  currentTurnScore (lowerStr t) + sessionScore ms bodyTools system

/-- The accumulated score of `classifyComplexity`. -/
def computeScore (ms : List Message) (bodyTools : Option Nat) (system : Option Str) : Nat :=
  scoreWithCurrentText (findLastUserText ms) ms bodyTools system

/-- The final score-to-tier mapping of `classifyComplexity`. -/
def classifyScore (score : Nat) : Complexity :=
  if 5 ≤ score then .complex
  else if 3 ≤ score then .moderate
  else .simple

/-- `classifyComplexity`: score the current turn plus session signals and
map the score to a tier. -/
def classifyComplexity (ms : List Message) (bodyTools : Option Nat)
    (system : Option Str) : Complexity :=
  classifyScore (computeScore ms bodyTools system)

example : classifyComplexity [] none none = .simple := by decide
example : classifyComplexity [⟨.str "hello".toList, none⟩] none none = .simple := by decide
example : classifyComplexity [⟨.str "analyze this codebase".toList, none⟩] (some 1) none
    = .moderate := by decide

def c6Message : Message := ⟨.str "```\nconst x = 1;\n```".toList, none⟩

/-- C2: the accumulated score maps to a tier by fixed thresholds: a score
of 5 or more yields `complex`, a score of exactly 3 or 4 yields `moderate`,
and a score below 3 yields `simple`. -/
theorem classifyComplexity_threshold_tiers (ms : List Message) (bodyTools : Option Nat)
    (system : Option Str) :
    (5 ≤ computeScore ms bodyTools system →
      classifyComplexity ms bodyTools system = .complex) ∧
    ((computeScore ms bodyTools system = 3 ∨ computeScore ms bodyTools system = 4) →
      classifyComplexity ms bodyTools system = .moderate) ∧
    (computeScore ms bodyTools system < 3 →
      classifyComplexity ms bodyTools system = .simple) := by
  unfold classifyComplexity classifyScore
  refine ⟨fun h => ?_, fun h => ?_, fun h => ?_⟩
  · rw [if_pos h]
  · rw [if_neg (by omega), if_pos (by omega)]
  · rw [if_neg (by omega), if_neg (by omega)]

/-- Witness for C2: a request scoring exactly 3 (keyword +1, tools +2) is
classified `moderate`. -/
theorem classifyComplexity_threshold_tiers_witness :
    classifyComplexity [⟨.str "analyze this codebase".toList, none⟩] (some 1) none
      = .moderate :=
  (classifyComplexity_threshold_tiers [⟨.str "analyze this codebase".toList, none⟩]
    (some 1) none).2.1 (Or.inl (by decide))

/-- C6 counterexample: the single message `"```\nconst x = 1;\n```"` with no
tools and no system prompt is not classified `moderate` (the code-pattern
signal alone yields score 2, which maps to `simple`). -/
theorem c6_fence_not_moderate :
    classifyComplexity [c6Message] none none ≠ .moderate := by decide

/-- C6 amended: the single message `"```\nconst x = 1;\n```"` with no tools
scores exactly 2 (code pattern) and is classified `simple`. -/
theorem c6_fence_simple_score_two :
    computeScore [c6Message] none none = 2 ∧
    classifyComplexity [c6Message] none none = .simple := by decide

/-- Total number of `tool_result` blocks held by the last six messages
(the spec's reading of the recent-activity signal, counting blocks). -/
def toolResultBlocksInLastSix (ms : List Message) : Nat :=
  ((lastSix ms).map (fun m =>
    match m.content with
    | .blocks bs => (bs.filter (fun b => b.btype = some typeToolResult)).length
    | _ => 0)).sum

def trBlock : Block := ⟨some typeToolResult, none⟩

/-- A one-message history whose single message holds three tool_result blocks. -/
def c5Msgs : List Message := [⟨.blocks [trBlock, trBlock, trBlock], none⟩]

/-- C5 counterexample: a history whose last six messages hold three
tool_result blocks (all inside one message) gets no recent-activity point:
the signal is 0 and the total score is 2 (tool presence only), not 3. -/
theorem c5_blocks_in_one_message_not_counted :
    toolResultBlocksInLastSix c5Msgs = 3 ∧
    recentToolSignal c5Msgs = 0 ∧
    computeScore c5Msgs none none = 2 := by decide

/-- C5 amended: the recent-activity signal adds exactly +1 when at least
three of the last six MESSAGES each hold a tool_result block (several
blocks inside one message count once), and messages earlier than the last
six contribute nothing to it. -/
theorem recentToolSignal_counts_messages (pre ms6 : List Message)
    (bodyTools : Option Nat) (system : Option Str) (h : ms6.length = 6) :
    recentToolSignal (pre ++ ms6) = recentToolSignal ms6 ∧
    (3 ≤ (ms6.filter msgHasToolResult).length →
      sessionScore (pre ++ ms6) bodyTools system
        = toolScore (pre ++ ms6) bodyTools + systemSignal system + 1) ∧
    ((ms6.filter msgHasToolResult).length < 3 →
      sessionScore (pre ++ ms6) bodyTools system
        = toolScore (pre ++ ms6) bodyTools + systemSignal system) := by
  have hl : lastSix (pre ++ ms6) = ms6 := by
    unfold lastSix
    rw [List.length_append, h]
    have h6 : pre.length + 6 - 6 = pre.length := by omega
    rw [h6, List.drop_left]
  have hms : lastSix ms6 = ms6 := by
    unfold lastSix; rw [h]; simp
  have hsig : recentToolSignal (pre ++ ms6)
      = (if 3 ≤ (ms6.filter msgHasToolResult).length then 1 else 0) := by
    unfold recentToolSignal recentToolResults
    rw [hl]
  refine ⟨?_, fun h3 => ?_, fun h3 => ?_⟩
  · rw [hsig]; unfold recentToolSignal recentToolResults; rw [hms]
  · unfold sessionScore
    rw [hsig, if_pos h3]
    omega
  · unfold sessionScore
    rw [hsig, if_neg (by omega)]
    omega

def plainMsg : Message := ⟨.str "ok then".toList, none⟩
def trMsg : Message := ⟨.blocks [trBlock], none⟩

/-- Witness for C5 amended: with three of the last six messages holding a
tool_result block, the session score carries exactly one extra point. -/
theorem recentToolSignal_counts_messages_witness :
    sessionScore ([plainMsg] ++ [trMsg, trMsg, trMsg, plainMsg, plainMsg, plainMsg])
        none none
      = toolScore ([plainMsg] ++ [trMsg, trMsg, trMsg, plainMsg, plainMsg, plainMsg])
          none + systemSignal none + 1 :=
  (recentToolSignal_counts_messages [plainMsg]
    [trMsg, trMsg, trMsg, plainMsg, plainMsg, plainMsg] none none (by decide)).2.1
    (by decide)

theorem drop_append_of_le {α : Type} :
    ∀ (s : List α) (i : Nat), i ≤ s.length → ∀ u, (s ++ u).drop i = s.drop i ++ u
  | _, 0, _, _ => rfl
  | a :: s, i + 1, h, u => by
      simp only [List.cons_append, List.drop_succ_cons]
      exact drop_append_of_le s i (by simpa using h) u
  | [], i + 1, h, _ => absurd h (by simp)

theorem take_append_of_le {α : Type} :
    ∀ (s : List α) (i : Nat), i ≤ s.length → ∀ u, (s ++ u).take i = s.take i
  | _, 0, _, _ => by simp
  | a :: s, i + 1, h, u => by
      simp only [List.cons_append, List.take_succ_cons]
      rw [take_append_of_le s i (by simpa using h) u]
  | [], i + 1, h, _ => absurd h (by simp)

theorem isPrefixOf_append_mono {p v u : Str} (h : p.isPrefixOf v = true) :
    p.isPrefixOf (v ++ u) = true := by
  rw [List.isPrefixOf_iff_prefix] at h ⊢
  exact h.trans (List.prefix_append v u)

/-- A literal-substring hit survives appending text on the right. -/
theorem containsPat_append_mono {s u p : Str} (h : containsPat s p = true) :
    containsPat (s ++ u) p = true := by
  unfold containsPat at h ⊢
  rw [List.any_eq_true] at h ⊢
  obtain ⟨i, hi, hp⟩ := h
  rw [List.mem_range] at hi
  refine ⟨i, ?_, ?_⟩
  · rw [List.mem_range, List.length_append]; omega
  · rw [drop_append_of_le s i (by omega) u]
    exact isPrefixOf_append_mono hp

theorem containsAny_append_mono {s u : Str} {ps : List Str}
    (h : containsAny s ps = true) : containsAny (s ++ u) ps = true := by
  unfold containsAny at h ⊢
  rw [List.any_eq_true] at h ⊢
  obtain ⟨p, hp, hc⟩ := h
  exact ⟨p, hp, containsPat_append_mono hc⟩

/-- A `/p.*q/` hit survives appending text on the right. -/
theorem seqNoNL_append_mono {s u p q : Str} (h : seqNoNL s p q = true) :
    seqNoNL (s ++ u) p q = true := by
  unfold seqNoNL at h ⊢
  rw [List.any_eq_true] at h ⊢
  obtain ⟨i, hi, hbody⟩ := h
  rw [List.mem_range] at hi
  rw [Bool.and_eq_true] at hbody
  obtain ⟨hp, hinner⟩ := hbody
  have hip : i + p.length ≤ s.length := by
    rw [List.isPrefixOf_iff_prefix] at hp
    have := hp.length_le
    rw [List.length_drop] at this
    omega
  refine ⟨i, ?_, ?_⟩
  · rw [List.mem_range, List.length_append]; omega
  · rw [Bool.and_eq_true]
    constructor
    · rw [drop_append_of_le s i (by omega) u]
      exact isPrefixOf_append_mono hp
    · simp only [List.any_eq_true] at hinner ⊢
      obtain ⟨j, hj, hq⟩ := hinner
      rw [List.mem_range, List.length_drop] at hj
      rw [Bool.and_eq_true] at hq
      obtain ⟨hq1, hq2⟩ := hq
      have hrest : (s ++ u).drop (i + p.length) = s.drop (i + p.length) ++ u :=
        drop_append_of_le s (i + p.length) hip u
      refine ⟨j, ?_, ?_⟩
      · rw [List.mem_range, hrest, List.length_append, List.length_drop]; omega
      · rw [Bool.and_eq_true, hrest]
        constructor
        · rw [drop_append_of_le (s.drop (i + p.length)) j
            (by rw [List.length_drop]; omega) u]
          exact isPrefixOf_append_mono hq1
        · rw [take_append_of_le (s.drop (i + p.length)) j
            (by rw [List.length_drop]; omega) u]
          exact hq2

/-- A `/p\d/` hit survives appending text on the right. -/
theorem seqDigit_append_mono {s u p : Str} (h : seqDigit s p = true) :
    seqDigit (s ++ u) p = true := by
  unfold seqDigit at h ⊢
  rw [List.any_eq_true] at h ⊢
  obtain ⟨i, hi, hbody⟩ := h
  rw [List.mem_range] at hi
  rw [Bool.and_eq_true] at hbody
  obtain ⟨hp, hdig⟩ := hbody
  have hip : i + p.length ≤ s.length := by
    rw [List.isPrefixOf_iff_prefix] at hp
    have := hp.length_le
    rw [List.length_drop] at this
    omega
  refine ⟨i, ?_, ?_⟩
  · rw [List.mem_range, List.length_append]; omega
  · rw [Bool.and_eq_true]
    refine ⟨?_, ?_⟩
    · rw [drop_append_of_le s i (by omega) u]
      exact isPrefixOf_append_mono hp
    · rw [drop_append_of_le s (i + p.length) hip u]
      cases hd : s.drop (i + p.length) with
      | nil => rw [hd] at hdig; simp at hdig
      | cons c tl => rw [hd] at hdig; simpa using hdig

theorem codeSignal_append_mono (t u : Str) : codeSignal t ≤ codeSignal (t ++ u) := by
  unfold codeSignal
  split
  · rename_i h
    rw [if_pos]
    rcases Bool.or_eq_true _ _ |>.mp h with h1 | h2
    · exact Bool.or_eq_true _ _ |>.mpr (Or.inl (containsPat_append_mono h1))
    · exact Bool.or_eq_true _ _ |>.mpr (Or.inr (containsAny_append_mono h2))
  · omega

theorem analyticalSignal_append_mono (t u : Str) :
    analyticalSignal t ≤ analyticalSignal (t ++ u) := by
  unfold analyticalSignal
  split
  · rename_i h; rw [if_pos (containsAny_append_mono h)]
  · omega

theorem computationSignal_append_mono (t u : Str) :
    computationSignal t ≤ computationSignal (t ++ u) := by
  unfold computationSignal
  split
  · rename_i h; rw [if_pos (containsAny_append_mono h)]
  · omega

theorem multiStepSignal_append_mono (t u : Str) :
    multiStepSignal t ≤ multiStepSignal (t ++ u) := by
  unfold multiStepSignal
  split
  · rename_i h
    rw [if_pos]
    rcases Bool.or_eq_true _ _ |>.mp h with h1 | h2
    · rcases Bool.or_eq_true _ _ |>.mp h1 with h11 | h12
      · rcases Bool.or_eq_true _ _ |>.mp h11 with h111 | h112
        · exact Bool.or_eq_true _ _ |>.mpr (Or.inl (Bool.or_eq_true _ _ |>.mpr
            (Or.inl (Bool.or_eq_true _ _ |>.mpr (Or.inl (seqNoNL_append_mono h111))))))
        · exact Bool.or_eq_true _ _ |>.mpr (Or.inl (Bool.or_eq_true _ _ |>.mpr
            (Or.inl (Bool.or_eq_true _ _ |>.mpr (Or.inr (seqDigit_append_mono h112))))))
      · exact Bool.or_eq_true _ _ |>.mpr (Or.inl (Bool.or_eq_true _ _ |>.mpr
          (Or.inr (seqNoNL_append_mono h12))))
    · exact Bool.or_eq_true _ _ |>.mpr (Or.inr (seqDigit_append_mono h2))
  · omega

theorem tokenSignal_append_mono (t u : Str) : tokenSignal t ≤ tokenSignal (t ++ u) := by
  unfold tokenSignal estTokens
  have hlen : t.length ≤ (t ++ u).length := by
    rw [List.length_append]; omega
  have h1 : (t.length + 3) / 4 ≤ ((t ++ u).length + 3) / 4 :=
    Nat.div_le_div_right (by omega)
  split <;> split <;> split <;> split <;> omega

theorem creativeSignal_append_mono (t u : Str) :
    creativeSignal t ≤ creativeSignal (t ++ u) := by
  unfold creativeSignal
  split
  · rename_i h; rw [if_pos (containsAny_append_mono h)]
  · omega

theorem engineeringSignal_append_mono (t u : Str) :
    engineeringSignal t ≤ engineeringSignal (t ++ u) := by
  unfold engineeringSignal
  split
  · rename_i h; rw [if_pos (containsAny_append_mono h)]
  · omega

theorem currentTurnScore_append_mono (t u : Str) :
    currentTurnScore t ≤ currentTurnScore (t ++ u) := by
  unfold currentTurnScore
  have h1 := codeSignal_append_mono t u
  have h2 := analyticalSignal_append_mono t u
  have h3 := computationSignal_append_mono t u
  have h4 := multiStepSignal_append_mono t u
  have h5 := tokenSignal_append_mono t u
  have h6 := creativeSignal_append_mono t u
  have h7 := engineeringSignal_append_mono t u
  omega

theorem classifyScore_rank_mono {a b : Nat} (h : a ≤ b) :
    (classifyScore a).rank ≤ (classifyScore b).rank := by
  unfold classifyScore
  split_ifs <;> simp only [Complexity.rank] <;> omega

/-- C9: appending any text (a code-fence marker, a keyword, filler that
crosses a token threshold, ...) to the current-turn text, all other inputs
held fixed, never decreases the score nor the returned tier, and
`classifyComplexity` is this scoring applied to the located current text. -/
theorem classifyComplexity_append_current_mono (t u : Str) (ms : List Message)
    (bodyTools : Option Nat) (system : Option Str) :
    scoreWithCurrentText t ms bodyTools system
      ≤ scoreWithCurrentText (t ++ u) ms bodyTools system ∧
    (classifyScore (scoreWithCurrentText t ms bodyTools system)).rank
      ≤ (classifyScore (scoreWithCurrentText (t ++ u) ms bodyTools system)).rank ∧
    classifyComplexity ms bodyTools system
      = classifyScore (scoreWithCurrentText (findLastUserText ms) ms bodyTools system) := by
  have hlower : lowerStr (t ++ u) = lowerStr t ++ lowerStr u := by
    unfold lowerStr; exact List.map_append _ _ _
  have hmono : scoreWithCurrentText t ms bodyTools system
      ≤ scoreWithCurrentText (t ++ u) ms bodyTools system := by
    unfold scoreWithCurrentText
    rw [hlower]
    have := currentTurnScore_append_mono (lowerStr t) (lowerStr u)
    omega
  exact ⟨hmono, classifyScore_rank_mono hmono, rfl⟩

/-!
SSE writer and provider-stream relay.  The underlying `ServerResponse` is
abstracted as a transport oracle deciding, per physical write attempt,
whether `response.write` succeeds or throws (broken pipe); `fetch`, the
body reader and `JSON.parse` / `JSON.stringify` are abstracted as inputs
(an upstream outcome, a `parse` and a `stringify` function).
-/

/-- Transport oracle: does the `n`-th call to `response.write` succeed? -/
structure Transport where
  accepts : Nat → Bool

/-- The `data` field of an SSE message: a plain string, a parsed chunk to
be JSON-stringified, or the error object `{error: {message, status?}}`. -/
inductive SSEData (α : Type) where
  | str (s : Str)
  | chunk (c : α)
  | errObj (message : Str) (status : Option Nat)

/-- An SSE message (`{event?, data, id?, retry?}`). -/
structure SSEMessage (α : Type) where
  event : Option Str := none
  data : SSEData α
  id : Option Str := none
  retry : Option Nat := none

/-- Observable state of an `SSEWriter`: number of physical write attempts,
the frames handed to `response.write` (all of them, and those the
transport accepted), whether `response.end()` ran, and the `closed` flag. -/
structure WriterState where
  writeCalls : Nat
  attempts : List Str
  sent : List Str
  ended : Bool
  closed : Bool
deriving DecidableEq, Repr

def WriterState.init : WriterState :=
  { writeCalls := 0, attempts := [], sent := [], ended := false, closed := false }

/-- JavaScript `s.split('\n')`: always returns at least one piece. -/
def splitNl : Str → List Str
  | [] => [[]]
  | c :: rest =>
      if c = '\n' then [] :: splitNl rest
      else
        match splitNl rest with
        | [] => [[c]]
        | l :: ls => (c :: l) :: ls

/-- Serialize an SSE message to its wire frame: optional `event:`/`id:`
lines (skipped when the string is empty — JS truthiness), an optional
`retry:` line, one `data: ` line per payload line, and two trailing empty
lines, joined with `'\n'`. -/
def frameOf {α : Type} (stringify : α → Str) (errStringify : Str → Option Nat → Str)
    (m : SSEMessage α) : Str :=
  let hdr : List Str :=
    (match m.event with
     | some e => if e = [] then [] else ["event: ".toList ++ e]
     | none => []) ++
    (match m.id with
     | some i => if i = [] then [] else ["id: ".toList ++ i]
     | none => []) ++
    (match m.retry with
     | some r => ["retry: ".toList ++ (toString r).toList]
     | none => [])
  let dataStr : Str :=
    match m.data with
    | .str s => s
    | .chunk c => stringify c
    | .errObj msg st => errStringify msg st
  let dataLines := (splitNl dataStr).map (fun l => "data: ".toList ++ l)
  List.intercalate ['\n'] (hdr ++ dataLines ++ [[], []])

/-- `SSEWriter.write`: no-op returning `false` when closed; otherwise
serialize and attempt the physical write, returning `true` on success and
`false` (transitioning to closed) when the transport throws. -/
def writerWrite {α : Type} (tr : Transport) (stringify : α → Str)
    (errStringify : Str → Option Nat → Str) (m : SSEMessage α) (w : WriterState) :
    Bool × WriterState :=
  if w.closed then (false, w)
  else
    let fr := frameOf stringify errStringify m
    if tr.accepts w.writeCalls then
      (true, { w with writeCalls := w.writeCalls + 1,
                      attempts := w.attempts ++ [fr],
                      sent := w.sent ++ [fr] })
    else
      (false, { w with writeCalls := w.writeCalls + 1,
                       attempts := w.attempts ++ [fr],
                       closed := true })

/-- `SSEWriter.close`: when not already closed, write the `[DONE]`
sentinel, end the response and transition to closed; otherwise no-op. -/
def writerClose {α : Type} (tr : Transport) (stringify : α → Str)
    (errStringify : Str → Option Nat → Str) (w : WriterState) : WriterState :=
  if w.closed then w
  else
    let w1 := (writerWrite tr stringify errStringify
      { data := SSEData.str "[DONE]".toList } w).2
    { w1 with ended := true, closed := true }

/-- The wire frame of the `[DONE]` sentinel message. -/
def doneFrame : Str := "data: [DONE]\n\n".toList

theorem frameOf_done {α : Type} (stringify : α → Str)
    (errStringify : Str → Option Nat → Str) :
    frameOf stringify errStringify { data := SSEData.str "[DONE]".toList } = doneFrame := by
  rfl

theorem writerClose_of_closed {α : Type} (tr : Transport) (stringify : α → Str)
    (errStringify : Str → Option Nat → Str) (w : WriterState) (h : w.closed = true) :
    writerClose tr stringify errStringify w = w := by
  unfold writerClose
  rw [if_pos h]

/-- C7: `close()` on an open writer hands exactly one `[DONE]` frame to the
transport, ends the response and transitions to closed; a second `close()`
changes nothing, so closing twice emits exactly one `[DONE]` in total. -/
theorem writerClose_idempotent_one_done {α : Type} (tr : Transport)
    (stringify : α → Str) (errStringify : Str → Option Nat → Str)
    (w : WriterState) (h : w.closed = false) :
    writerClose tr stringify errStringify (writerClose tr stringify errStringify w)
      = writerClose tr stringify errStringify w ∧
    (writerClose tr stringify errStringify w).closed = true ∧
    (writerClose tr stringify errStringify w).ended = true ∧
    (writerClose tr stringify errStringify w).attempts = w.attempts ++ [doneFrame] := by
  have hstep : writerClose tr stringify errStringify w
      = { (writerWrite tr stringify errStringify
            { data := SSEData.str "[DONE]".toList } w).2 with
          ended := true, closed := true } := by
    unfold writerClose
    rw [if_neg (by rw [h]; exact Bool.false_ne_true)]
  have hclosed : (writerClose tr stringify errStringify w).closed = true := by
    rw [hstep]
  refine ⟨writerClose_of_closed tr stringify errStringify _ hclosed, hclosed,
    by rw [hstep], ?_⟩
  · rw [hstep]
    unfold writerWrite
    rw [if_neg (by rw [h]; exact Bool.false_ne_true)]
    rw [frameOf_done]
    split <;> rfl

def trAcceptAll : Transport := ⟨fun _ => true⟩
def unitStringify : Unit → Str := fun _ => "null".toList
def demoErrStringify : Str → Option Nat → Str := fun _ _ => "{}".toList

/-- Witness for C7 on a fresh open writer over an accepting transport. -/
theorem writerClose_idempotent_one_done_witness :
    writerClose trAcceptAll unitStringify demoErrStringify
        (writerClose trAcceptAll unitStringify demoErrStringify WriterState.init)
      = writerClose trAcceptAll unitStringify demoErrStringify WriterState.init ∧
    (writerClose trAcceptAll unitStringify demoErrStringify WriterState.init).closed
      = true ∧
    (writerClose trAcceptAll unitStringify demoErrStringify WriterState.init).ended
      = true ∧
    (writerClose trAcceptAll unitStringify demoErrStringify WriterState.init).attempts
      = WriterState.init.attempts ++ [doneFrame] :=
  writerClose_idempotent_one_done trAcceptAll unitStringify demoErrStringify
    WriterState.init rfl

def dataLinePrefix : Str := "data: ".toList
def doneLit : Str := "[DONE]".toList

/-- A complete SSE `data:` line carrying payload `p`. -/
def dLine (p : Str) : Str := dataLinePrefix ++ p

/-- State after draining complete lines: writer, collected chunks, and
whether the client disconnected (a sink write returned `false`). -/
structure DrainState (α : Type) where
  w : WriterState
  chunks : List α
  disconnected : Bool

/-- The inner `for (const line of lines)` loop of `streamProviderResponse`:
non-`data:` lines are ignored, a `[DONE]` payload is skipped, an
unparsable payload is skipped silently, and a parsed chunk is collected and
forwarded to the sink; a failed sink write stops everything at once. -/
def processLines {α : Type} (tr : Transport) (parse : Str → Option α)
    (strf : α → Str) (errS : Str → Option Nat → Str) :
    List Str → WriterState → List α → DrainState α
  | [], w, cs => ⟨w, cs, false⟩
  | line :: rest, w, cs =>
      if dataLinePrefix.isPrefixOf line then
        if line.drop 6 = doneLit then processLines tr parse strf errS rest w cs
        else
          match parse (line.drop 6) with
          | some parsed =>
              let r := writerWrite tr strf errS { data := SSEData.chunk parsed } w
              if r.1 then processLines tr parse strf errS rest r.2 (cs ++ [parsed])
              else ⟨r.2, cs ++ [parsed], true⟩
          | none => processLines tr parse strf errS rest w cs
      else processLines tr parse strf errS rest w cs

/-- State of the outer read loop: pending partial line, writer, chunks,
time-to-first-token, and the disconnect flag. -/
structure LoopState (α : Type) where
  buffer : Str
  w : WriterState
  chunks : List α
  ttft : Option Nat
  disconnected : Bool

/-- The `while (true)` read loop: append the decoded read to the buffer,
split on newlines keeping the final incomplete line, drain the complete
lines, and stop at once on disconnect.  `ttftVal` abstracts the value of
`Date.now() - startTime` at the first read. -/
def relayReads {α : Type} (tr : Transport) (parse : Str → Option α)
    (strf : α → Str) (errS : Str → Option Nat → Str) (ttftVal : Nat) :
    List Str → LoopState α → LoopState α
  | [], st => st
  | value :: rest, st =>
      let ttft2 := if st.ttft.isNone then some ttftVal else st.ttft
      let lines := splitNl (st.buffer ++ value)
      let ds := processLines tr parse strf errS lines.dropLast st.w st.chunks
      if ds.disconnected then ⟨lines.getLastD [], ds.w, ds.chunks, ttft2, true⟩
      else relayReads tr parse strf errS ttftVal rest
        ⟨lines.getLastD [], ds.w, ds.chunks, ttft2, false⟩

/-- What `fetch` and the body reader deliver: the fetch call throwing, a
non-success status, a response with no body, or a body whose reader yields
the given decoded reads and then either finishes or throws. -/
inductive Upstream where
  | fetchThrows (message : Str)
  | httpError (status : Nat)
  | noBody
  | body (reads : List Str) (thenThrows : Option Str)

/-- The relay's return value `{success, chunks, ttftMs?}`. -/
structure RelayOutcome (α : Type) where
  success : Bool
  chunks : List α
  ttftMs : Option Nat

def errorEvent : Option Str := some "error".toList

/-- `streamProviderResponse`, relative to a sink transport, a `JSON.parse`
for chunk payloads, a `JSON.stringify` for chunks and for error objects,
an upstream outcome and the initial writer state.  Returns the relay
outcome and the final writer state. -/
def streamProviderResponse {α : Type} (tr : Transport) (parse : Str → Option α)
    (strf : α → Str) (errS : Str → Option Nat → Str) (up : Upstream)
    (ttftVal : Nat) (w0 : WriterState) : RelayOutcome α × WriterState :=
  match up with
  | .fetchThrows msg =>
      let w1 := (writerWrite tr strf errS
        { event := errorEvent, data := SSEData.errObj msg none } w0).2
      (⟨false, [], none⟩, writerClose tr strf errS w1)
  | .httpError status =>
      let msg := "Provider returned ".toList ++ (toString status).toList
      let w1 := (writerWrite tr strf errS
        { event := errorEvent, data := SSEData.errObj msg (some status) } w0).2
      (⟨false, [], none⟩, writerClose tr strf errS w1)
  | .noBody =>
      (⟨false, [], none⟩, writerClose tr strf errS w0)
  | .body reads thenThrows =>
      let st := relayReads tr parse strf errS ttftVal reads ⟨[], w0, [], none, false⟩
      if st.disconnected then
        (⟨false, st.chunks, st.ttft⟩, st.w)
      else
        match thenThrows with
        | some msg =>
            let w1 := (writerWrite tr strf errS
              { event := errorEvent, data := SSEData.errObj msg none } st.w).2
            (⟨false, st.chunks, st.ttft⟩, writerClose tr strf errS w1)
        | none =>
            let fl :=
              if dataLinePrefix.isPrefixOf st.buffer then
                if st.buffer.drop 6 ≠ [] ∧ st.buffer.drop 6 ≠ doneLit then
                  match parse (st.buffer.drop 6) with
                  | some p =>
                      ((writerWrite tr strf errS
                        { data := SSEData.chunk p } st.w).2, st.chunks ++ [p])
                  | none => (st.w, st.chunks)
                else (st.w, st.chunks)
              else (st.w, st.chunks)
            (⟨true, fl.2, st.ttft⟩, writerClose tr strf errS fl.1)

/-- One upstream read carrying the given payloads as newline-terminated
`data:` lines. -/
def mkLinesRead : List Str → Str
  | [] => []
  | p :: ps => dLine p ++ '\n' :: mkLinesRead ps

def demoParse : Str → Option Nat := fun s =>
  if s = "1".toList then some 1
  else if s = "2".toList then some 2
  else if s = "3".toList then some 3
  else none
def demoStrf : Nat → Str := fun n => (toString n).toList
def trRejectAll : Transport := ⟨fun _ => false⟩
def trFirstOnly : Transport := ⟨fun n => n == 0⟩

example :
    (streamProviderResponse trAcceptAll demoParse demoStrf demoErrStringify
      (.body [mkLinesRead ["1".toList, "2".toList]] none) 5 WriterState.init).1.success
      = true := by decide

example :
    (streamProviderResponse trAcceptAll demoParse demoStrf demoErrStringify
      (.body [mkLinesRead ["1".toList, "2".toList]] none) 5 WriterState.init).1.chunks
      = [1, 2] := by decide

example :
    (streamProviderResponse trAcceptAll demoParse demoStrf demoErrStringify
      (.body [mkLinesRead ["1".toList, "2".toList]] none) 5 WriterState.init).2.ended
      = true := by decide

theorem writerWrite_fst_false_closed {α : Type} (tr : Transport) (strf : α → Str)
    (errS : Str → Option Nat → Str) (m : SSEMessage α) (w : WriterState)
    (h : (writerWrite tr strf errS m w).1 = false) :
    (writerWrite tr strf errS m w).2.closed = true := by
  simp only [writerWrite] at h ⊢
  by_cases hc : w.closed = true
  · rw [if_pos hc] at h ⊢; exact hc
  · rw [if_neg hc] at h ⊢
    by_cases hacc : tr.accepts w.writeCalls = true
    · rw [if_pos hacc] at h; exact absurd h (by simp)
    · rw [if_neg hacc]

theorem writerWrite_open_accept {α : Type} (tr : Transport) (strf : α → Str)
    (errS : Str → Option Nat → Str) (m : SSEMessage α) (w : WriterState)
    (hw : w.closed = false) (hacc : tr.accepts w.writeCalls = true) :
    (writerWrite tr strf errS m w).1 = true ∧
    (writerWrite tr strf errS m w).2.closed = false := by
  simp only [writerWrite]
  rw [if_neg (by rw [hw]; exact Bool.false_ne_true), if_pos hacc]
  exact ⟨rfl, hw⟩

theorem writerClose_closed {α : Type} (tr : Transport) (strf : α → Str)
    (errS : Str → Option Nat → Str) (w : WriterState) :
    (writerClose tr strf errS w).closed = true := by
  simp only [writerClose]
  by_cases h : w.closed = true
  · rw [if_pos h]; exact h
  · rw [if_neg h]

/-- `close()` on an open writer ends the response and attempts exactly one
more frame, the `[DONE]` sentinel. -/
theorem writerClose_open_spec {α : Type} (tr : Transport) (strf : α → Str)
    (errS : Str → Option Nat → Str) (w : WriterState) (hw : w.closed = false) :
    (writerClose tr strf errS w).ended = true ∧
    (writerClose tr strf errS w).attempts = w.attempts ++ [doneFrame] := by
  simp only [writerClose]
  rw [if_neg (by rw [hw]; exact Bool.false_ne_true)]
  refine ⟨rfl, ?_⟩
  simp only [writerWrite]
  rw [if_neg (by rw [hw]; exact Bool.false_ne_true), frameOf_done]
  split <;> rfl

theorem processLines_disc_closed {α : Type} (tr : Transport) (parse : Str → Option α)
    (strf : α → Str) (errS : Str → Option Nat → Str) :
    ∀ (lines : List Str) (w : WriterState) (cs : List α),
      (processLines tr parse strf errS lines w cs).disconnected = true →
      (processLines tr parse strf errS lines w cs).w.closed = true := by
  intro lines
  induction lines with
  | nil => intro w cs h; simp [processLines] at h
  | cons line rest ih =>
      intro w cs
      simp only [processLines]
      by_cases hpre : dataLinePrefix.isPrefixOf line = true
      · rw [if_pos hpre]
        by_cases hdone : line.drop 6 = doneLit
        · rw [if_pos hdone]; exact ih w cs
        · rw [if_neg hdone]
          cases hp : parse (line.drop 6) with
          | some parsed =>
              dsimp only
              by_cases hr : (writerWrite tr strf errS
                  { data := SSEData.chunk parsed } w).1 = true
              · rw [if_pos hr]; exact ih _ _
              · rw [if_neg hr]
                intro _
                exact writerWrite_fst_false_closed tr strf errS _ w
                  (by revert hr; cases (writerWrite tr strf errS
                    { data := SSEData.chunk parsed } w).1 <;> simp)
          | none => exact ih w cs
      · rw [if_neg hpre]; exact ih w cs

theorem relayReads_disc_closed {α : Type} (tr : Transport) (parse : Str → Option α)
    (strf : α → Str) (errS : Str → Option Nat → Str) (ttftVal : Nat) :
    ∀ (reads : List Str) (st : LoopState α),
      (st.disconnected = true → st.w.closed = true) →
      ((relayReads tr parse strf errS ttftVal reads st).disconnected = true →
        (relayReads tr parse strf errS ttftVal reads st).w.closed = true) := by
  intro reads
  induction reads with
  | nil => intro st hst; exact hst
  | cons value rest ih =>
      intro st hst
      simp only [relayReads]
      by_cases hd : (processLines tr parse strf errS
          (splitNl (st.buffer ++ value)).dropLast st.w st.chunks).disconnected = true
      · rw [if_pos hd]
        intro _
        exact processLines_disc_closed tr parse strf errS _ _ _ hd
      · rw [if_neg hd]
        exact ih _ (fun hfalse => by simp at hfalse)

theorem processLines_open_no_disc {α : Type} (tr : Transport) (parse : Str → Option α)
    (strf : α → Str) (errS : Str → Option Nat → Str)
    (hacc : ∀ n, tr.accepts n = true) :
    ∀ (lines : List Str) (w : WriterState) (cs : List α), w.closed = false →
      (processLines tr parse strf errS lines w cs).disconnected = false ∧
      (processLines tr parse strf errS lines w cs).w.closed = false := by
  intro lines
  induction lines with
  | nil => intro w cs hw; exact ⟨rfl, hw⟩
  | cons line rest ih =>
      intro w cs hw
      simp only [processLines]
      by_cases hpre : dataLinePrefix.isPrefixOf line = true
      · rw [if_pos hpre]
        by_cases hdone : line.drop 6 = doneLit
        · rw [if_pos hdone]; exact ih w cs hw
        · rw [if_neg hdone]
          cases hp : parse (line.drop 6) with
          | some parsed =>
              dsimp only
              obtain ⟨h1, h2⟩ := writerWrite_open_accept tr strf errS
                { data := SSEData.chunk parsed } w hw (hacc _)
              rw [if_pos h1]
              exact ih _ _ h2
          | none => exact ih w cs hw
      · rw [if_neg hpre]; exact ih w cs hw

theorem relayReads_open_no_disc {α : Type} (tr : Transport) (parse : Str → Option α)
    (strf : α → Str) (errS : Str → Option Nat → Str) (ttftVal : Nat)
    (hacc : ∀ n, tr.accepts n = true) :
    ∀ (reads : List Str) (st : LoopState α),
      st.w.closed = false → st.disconnected = false →
      (relayReads tr parse strf errS ttftVal reads st).disconnected = false ∧
      (relayReads tr parse strf errS ttftVal reads st).w.closed = false := by
  intro reads
  induction reads with
  | nil => intro st hw hd; exact ⟨hd, hw⟩
  | cons value rest ih =>
      intro st hw hd
      simp only [relayReads]
      obtain ⟨h1, h2⟩ := processLines_open_no_disc tr parse strf errS hacc
        (splitNl (st.buffer ++ value)).dropLast st.w st.chunks hw
      rw [if_neg (by rw [h1]; exact Bool.false_ne_true)]
      exact ih _ h2 rfl

def c1Up : Upstream := .body [mkLinesRead ["1".toList]] none

/-- C1 counterexample: when the sink's write fails on the first chunk
(client gone), the relay returns without calling `close()`: the writer is
closed but the response was never ended and no `[DONE]` frame was ever
handed to the transport, so the stream does not terminate with `[DONE]`. -/
theorem streamProviderResponse_disconnect_skips_close :
    (streamProviderResponse trRejectAll demoParse demoStrf demoErrStringify
      c1Up 7 WriterState.init).1.success = false ∧
    (streamProviderResponse trRejectAll demoParse demoStrf demoErrStringify
      c1Up 7 WriterState.init).2.closed = true ∧
    (streamProviderResponse trRejectAll demoParse demoStrf demoErrStringify
      c1Up 7 WriterState.init).2.ended = false ∧
    ((streamProviderResponse trRejectAll demoParse demoStrf demoErrStringify
      c1Up 7 WriterState.init).2.attempts.filter (fun f => f = doneFrame)).length
      = 0 := by decide

/-- C1 amended: on every exit path the sink is left closed — but `close()`
itself runs on every exit path except the client-disconnect return.  In
particular, whenever the transport accepts every write (so no disconnect
can occur), the relay always ends the response and the last frame handed
to the transport is the `[DONE]` sentinel. -/
theorem streamProviderResponse_closes_sink {α : Type} (tr : Transport)
    (parse : Str → Option α) (strf : α → Str) (errS : Str → Option Nat → Str)
    (up : Upstream) (ttftVal : Nat) (w0 : WriterState) :
    (streamProviderResponse tr parse strf errS up ttftVal w0).2.closed = true ∧
    ((∀ n, tr.accepts n = true) → w0.closed = false →
      (streamProviderResponse tr parse strf errS up ttftVal w0).2.ended = true ∧
      (streamProviderResponse tr parse strf errS up ttftVal w0).2.attempts.getLast?
        = some doneFrame) := by
  cases up with
  | fetchThrows msg =>
      simp only [streamProviderResponse]
      refine ⟨writerClose_closed tr strf errS _, fun hacc hw0 => ?_⟩
      have hopen := (writerWrite_open_accept tr strf errS
        { event := errorEvent, data := SSEData.errObj msg none } w0 hw0 (hacc _)).2
      obtain ⟨he, ha⟩ := writerClose_open_spec tr strf errS _ hopen
      exact ⟨he, by rw [ha, List.getLast?_concat]⟩
  | httpError status =>
      simp only [streamProviderResponse]
      refine ⟨writerClose_closed tr strf errS _, fun hacc hw0 => ?_⟩
      have hopen := (writerWrite_open_accept tr strf errS
        { event := errorEvent,
          data := SSEData.errObj ("Provider returned ".toList
            ++ (toString status).toList) (some status) } w0 hw0 (hacc _)).2
      obtain ⟨he, ha⟩ := writerClose_open_spec tr strf errS _ hopen
      exact ⟨he, by rw [ha, List.getLast?_concat]⟩
  | noBody =>
      simp only [streamProviderResponse]
      refine ⟨writerClose_closed tr strf errS _, fun hacc hw0 => ?_⟩
      obtain ⟨he, ha⟩ := writerClose_open_spec tr strf errS _ hw0
      exact ⟨he, by rw [ha, List.getLast?_concat]⟩
  | body reads thenThrows =>
      simp only [streamProviderResponse]
      by_cases hd : (relayReads tr parse strf errS ttftVal reads
          ⟨[], w0, [], none, false⟩).disconnected = true
      · rw [if_pos hd]
        refine ⟨relayReads_disc_closed tr parse strf errS ttftVal reads _
          (fun hfalse => by simp at hfalse) hd, fun hacc hw0 => ?_⟩
        have := (relayReads_open_no_disc tr parse strf errS ttftVal hacc reads
          ⟨[], w0, [], none, false⟩ hw0 rfl).1
        rw [this] at hd
        exact absurd hd (by simp)
      · rw [if_neg hd]
        cases thenThrows with
        | some msg =>
            dsimp only
            refine ⟨writerClose_closed tr strf errS _, fun hacc hw0 => ?_⟩
            have hstopen := (relayReads_open_no_disc tr parse strf errS ttftVal
              hacc reads ⟨[], w0, [], none, false⟩ hw0 rfl).2
            have hopen := (writerWrite_open_accept tr strf errS
              { event := errorEvent, data := SSEData.errObj msg none } _ hstopen
              (hacc _)).2
            obtain ⟨he, ha⟩ := writerClose_open_spec tr strf errS _ hopen
            exact ⟨he, by rw [ha, List.getLast?_concat]⟩
        | none =>
            dsimp only
            refine ⟨writerClose_closed tr strf errS _, fun hacc hw0 => ?_⟩
            have hstopen := (relayReads_open_no_disc tr parse strf errS ttftVal
              hacc reads ⟨[], w0, [], none, false⟩ hw0 rfl).2
            have hflopen :
                (if dataLinePrefix.isPrefixOf (relayReads tr parse strf errS ttftVal
                    reads ⟨[], w0, [], none, false⟩).buffer then
                  if (relayReads tr parse strf errS ttftVal reads
                        ⟨[], w0, [], none, false⟩).buffer.drop 6 ≠ [] ∧
                      (relayReads tr parse strf errS ttftVal reads
                        ⟨[], w0, [], none, false⟩).buffer.drop 6 ≠ doneLit then
                    match parse ((relayReads tr parse strf errS ttftVal reads
                        ⟨[], w0, [], none, false⟩).buffer.drop 6) with
                    | some p =>
                        ((writerWrite tr strf errS { data := SSEData.chunk p }
                          (relayReads tr parse strf errS ttftVal reads
                            ⟨[], w0, [], none, false⟩).w).2,
                         (relayReads tr parse strf errS ttftVal reads
                            ⟨[], w0, [], none, false⟩).chunks ++ [p])
                    | none =>
                        ((relayReads tr parse strf errS ttftVal reads
                            ⟨[], w0, [], none, false⟩).w,
                         (relayReads tr parse strf errS ttftVal reads
                            ⟨[], w0, [], none, false⟩).chunks)
                  else
                    ((relayReads tr parse strf errS ttftVal reads
                        ⟨[], w0, [], none, false⟩).w,
                     (relayReads tr parse strf errS ttftVal reads
                        ⟨[], w0, [], none, false⟩).chunks)
                else
                  ((relayReads tr parse strf errS ttftVal reads
                      ⟨[], w0, [], none, false⟩).w,
                   (relayReads tr parse strf errS ttftVal reads
                      ⟨[], w0, [], none, false⟩).chunks)).1.closed = false := by
              split
              · split
                · cases hp : parse ((relayReads tr parse strf errS ttftVal reads
                      ⟨[], w0, [], none, false⟩).buffer.drop 6) with
                  | some p =>
                      exact (writerWrite_open_accept tr strf errS
                        { data := SSEData.chunk p } _ hstopen (hacc _)).2
                  | none => exact hstopen
                · exact hstopen
              · exact hstopen
            obtain ⟨he, ha⟩ := writerClose_open_spec tr strf errS _ hflopen
            exact ⟨he, by rw [ha, List.getLast?_concat]⟩

/-- Witness for C1 amended, at an accepting transport and a fresh writer. -/
theorem streamProviderResponse_closes_sink_witness :
    (streamProviderResponse trAcceptAll demoParse demoStrf demoErrStringify
      Upstream.noBody 0 WriterState.init).2.ended = true ∧
    (streamProviderResponse trAcceptAll demoParse demoStrf demoErrStringify
      Upstream.noBody 0 WriterState.init).2.attempts.getLast? = some doneFrame :=
  (streamProviderResponse_closes_sink trAcceptAll demoParse demoStrf
    demoErrStringify Upstream.noBody 0 WriterState.init).2 (fun _ => rfl) rfl

theorem splitNl_append_nl : ∀ (a b : Str), '\n' ∉ a →
    splitNl (a ++ '\n' :: b) = a :: splitNl b
  | [], b, _ => by simp [splitNl]
  | c :: a, b, h => by
      have hc : ¬(c = '\n') := fun heq => h (heq ▸ List.mem_cons_self c a)
      have ha : '\n' ∉ a := fun hh => h (List.mem_cons_of_mem _ hh)
      simp only [List.cons_append, splitNl, List.append_eq]
      rw [if_neg hc, splitNl_append_nl a b ha]

theorem nl_not_mem_dLine {p : Str} (hp : '\n' ∉ p) : '\n' ∉ dLine p := by
  intro hmem
  rcases List.mem_append.mp hmem with h1 | h2
  · exact absurd h1 (by decide)
  · exact hp h2

theorem splitNl_mkLinesRead :
    ∀ (ps : List Str), (∀ p ∈ ps, '\n' ∉ p) →
      splitNl (mkLinesRead ps) = ps.map dLine ++ [[]] := by
  intro ps
  induction ps with
  | nil => intro _; rfl
  | cons p ps ih =>
      intro h
      simp only [mkLinesRead]
      rw [splitNl_append_nl _ _ (nl_not_mem_dLine (h p (List.mem_cons_self _ _))),
        ih (fun q hq => h q (List.mem_cons_of_mem _ hq))]
      rfl

theorem isPrefixOf_dLine (p : Str) : dataLinePrefix.isPrefixOf (dLine p) = true := by
  rw [List.isPrefixOf_iff_prefix]
  exact List.prefix_append _ _

theorem drop6_dLine (p : Str) : (dLine p).drop 6 = p :=
  List.drop_left' rfl

/-- Evaluation of `SSEWriter.write` on an open writer over an accepting slot. -/
theorem writerWrite_eval_accept {α : Type} (tr : Transport) (strf : α → Str)
    (errS : Str → Option Nat → Str) (m : SSEMessage α) (w : WriterState)
    (hw : w.closed = false) (hacc : tr.accepts w.writeCalls = true) :
    writerWrite tr strf errS m w
      = (true, { w with writeCalls := w.writeCalls + 1,
                        attempts := w.attempts ++ [frameOf strf errS m],
                        sent := w.sent ++ [frameOf strf errS m] }) := by
  simp only [writerWrite]
  rw [if_neg (by rw [hw]; exact Bool.false_ne_true), if_pos hacc]

/-- Evaluation of `SSEWriter.write` on an open writer over a rejecting slot. -/
theorem writerWrite_eval_reject {α : Type} (tr : Transport) (strf : α → Str)
    (errS : Str → Option Nat → Str) (m : SSEMessage α) (w : WriterState)
    (hw : w.closed = false) (hacc : tr.accepts w.writeCalls = false) :
    writerWrite tr strf errS m w
      = (false, { w with writeCalls := w.writeCalls + 1,
                         attempts := w.attempts ++ [frameOf strf errS m],
                         closed := true }) := by
  simp only [writerWrite]
  rw [if_neg (by rw [hw]; exact Bool.false_ne_true),
    if_neg (by rw [hacc]; exact Bool.false_ne_true)]

/-- One step of the line loop on a parsed `data:` line. -/
theorem processLines_cons_parsed {α : Type} (tr : Transport) (parse : Str → Option α)
    (strf : α → Str) (errS : Str → Option Nat → Str) (p : Str) (c : α)
    (rest : List Str) (w : WriterState) (cs : List α)
    (hp : parse p = some c) (hd : p ≠ doneLit) :
    processLines tr parse strf errS (dLine p :: rest) w cs
      = if (writerWrite tr strf errS { data := SSEData.chunk c } w).1 then
          processLines tr parse strf errS rest
            (writerWrite tr strf errS { data := SSEData.chunk c } w).2 (cs ++ [c])
        else ⟨(writerWrite tr strf errS { data := SSEData.chunk c } w).2,
              cs ++ [c], true⟩ := by
  simp only [processLines]
  rw [if_pos (isPrefixOf_dLine p), drop6_dLine, if_neg hd]
  simp only [hp]

/-- One step of the line loop on an unparsable `data:` line: skipped. -/
theorem processLines_cons_unparsed {α : Type} (tr : Transport) (parse : Str → Option α)
    (strf : α → Str) (errS : Str → Option Nat → Str) (p : Str)
    (rest : List Str) (w : WriterState) (cs : List α) (hp : parse p = none) :
    processLines tr parse strf errS (dLine p :: rest) w cs
      = processLines tr parse strf errS rest w cs := by
  simp only [processLines]
  rw [if_pos (isPrefixOf_dLine p), drop6_dLine]
  by_cases hd : p = doneLit
  · rw [if_pos hd]
  · rw [if_neg hd]
    simp only [hp]

/-- One step of the line loop on a `data: [DONE]` line: skipped. -/
theorem processLines_cons_done {α : Type} (tr : Transport) (parse : Str → Option α)
    (strf : α → Str) (errS : Str → Option Nat → Str)
    (rest : List Str) (w : WriterState) (cs : List α) :
    processLines tr parse strf errS (dLine doneLit :: rest) w cs
      = processLines tr parse strf errS rest w cs := by
  simp only [processLines]
  rw [if_pos (isPrefixOf_dLine _), drop6_dLine, if_pos rfl]

/-- Splitting the line loop at an append: either the first segment
disconnects (and the rest is never looked at), or the loop continues on
the second segment from the carried-over writer and chunks. -/
theorem processLines_append {α : Type} (tr : Transport) (parse : Str → Option α)
    (strf : α → Str) (errS : Str → Option Nat → Str) :
    ∀ (xs ys : List Str) (w : WriterState) (cs : List α),
      processLines tr parse strf errS (xs ++ ys) w cs
        = if (processLines tr parse strf errS xs w cs).disconnected = true
          then processLines tr parse strf errS xs w cs
          else processLines tr parse strf errS ys
                 (processLines tr parse strf errS xs w cs).w
                 (processLines tr parse strf errS xs w cs).chunks := by
  intro xs
  induction xs with
  | nil =>
      intro ys w cs
      simp only [List.nil_append, processLines]
      rfl
  | cons l xs ih =>
      intro ys w cs
      simp only [List.cons_append, List.append_eq, processLines]
      by_cases hpre : dataLinePrefix.isPrefixOf l = true
      · rw [if_pos hpre, if_pos hpre]
        by_cases hdone : l.drop 6 = doneLit
        · rw [if_pos hdone, if_pos hdone]; exact ih ys w cs
        · rw [if_neg hdone, if_neg hdone]
          cases hp : parse (l.drop 6) with
          | some parsed =>
              dsimp only
              by_cases hr : (writerWrite tr strf errS
                  { data := SSEData.chunk parsed } w).1 = true
              · rw [if_pos hr, if_pos hr]; exact ih ys _ _
              · rw [if_neg hr, if_neg hr]; rfl
          | none => exact ih ys w cs
      · rw [if_neg hpre, if_neg hpre]; exact ih ys w cs

/-- Splitting the read loop at an append: either the first reads
disconnect (and the remaining reads are never consumed), or the loop
continues on the remaining reads from the carried-over state. -/
theorem relayReads_append {α : Type} (tr : Transport) (parse : Str → Option α)
    (strf : α → Str) (errS : Str → Option Nat → Str) (ttftVal : Nat) :
    ∀ (xs ys : List Str) (st : LoopState α), st.disconnected = false →
      relayReads tr parse strf errS ttftVal (xs ++ ys) st
        = if (relayReads tr parse strf errS ttftVal xs st).disconnected = true
          then relayReads tr parse strf errS ttftVal xs st
          else relayReads tr parse strf errS ttftVal ys
                 (relayReads tr parse strf errS ttftVal xs st) := by
  intro xs
  induction xs with
  | nil =>
      intro ys st hst
      simp only [List.nil_append, relayReads]
      rw [if_neg (by rw [hst]; exact Bool.false_ne_true)]
  | cons v xs ih =>
      intro ys st hst
      simp only [List.cons_append, relayReads]
      by_cases hd : (processLines tr parse strf errS
          (splitNl (st.buffer ++ v)).dropLast st.w st.chunks).disconnected = true
      · rw [if_pos hd, if_pos hd]
        rfl
      · rw [if_neg hd, if_neg hd]
        exact ih ys _ rfl

/-- The read loop only ever leaves `ttft` unset or set to the measured
first-read value. -/
theorem relayReads_ttft_inv {α : Type} (tr : Transport) (parse : Str → Option α)
    (strf : α → Str) (errS : Str → Option Nat → Str) (ttftVal : Nat) :
    ∀ (reads : List Str) (st : LoopState α),
      st.ttft = none ∨ st.ttft = some ttftVal →
      ((relayReads tr parse strf errS ttftVal reads st).ttft = none ∨
       (relayReads tr parse strf errS ttftVal reads st).ttft = some ttftVal) := by
  intro reads
  induction reads with
  | nil => intro st h; exact h
  | cons v xs ih =>
      intro st h
      simp only [relayReads]
      have h2 : (if st.ttft.isNone then some ttftVal else st.ttft)
          = some ttftVal := by
        rcases h with h | h <;> rw [h] <;> rfl
      by_cases hd : (processLines tr parse strf errS
          (splitNl (st.buffer ++ v)).dropLast st.w st.chunks).disconnected = true
      · rw [if_pos hd]
        right
        exact h2
      · rw [if_neg hd]
        exact ih _ (Or.inr h2)

/-- C4: if the sink's write returns `false` while forwarding the Nth
successfully parsed chunk — after any earlier reads and any earlier lines
of the current read drained cleanly, collecting the first N−1 chunks
`ds.chunks` — the relay returns `{success: false}` with exactly the N
chunks collected so far (`ds.chunks ++ [c]`, including the chunk whose
write failed) and the already-set `ttftMs`, and the final writer state is
exactly what the failed write left: no further upstream data is processed,
not the lines `qs` already present in the buffer, not the later reads
`rest`, not even a pending upstream error `th`, and `close()` is not
reached. -/
theorem streamProviderResponse_stops_on_disconnect {α : Type} (tr : Transport)
    (parse : Str → Option α) (strf : α → Str) (errS : Str → Option Nat → Str)
    (reads0 ps qs rest : List Str) (p : Str) (c : α)
    (th : Option Str) (ttftVal : Nat) (w0 : WriterState)
    (stMid : LoopState α) (ds : DrainState α)
    (hp : parse p = some c) (hpd : p ≠ doneLit)
    (hnl : ∀ q ∈ ps ++ p :: qs, '\n' ∉ q)
    (hmid : relayReads tr parse strf errS ttftVal reads0 ⟨[], w0, [], none, false⟩
      = stMid)
    (hmdisc : stMid.disconnected = false)
    (hmbuf : stMid.buffer = [])
    (hds : processLines tr parse strf errS (ps.map dLine) stMid.w stMid.chunks = ds)
    (hdsdisc : ds.disconnected = false)
    (hfail : (writerWrite tr strf errS { data := SSEData.chunk c } ds.w).1 = false) :
    streamProviderResponse tr parse strf errS
        (.body (reads0 ++ mkLinesRead (ps ++ p :: qs) :: rest) th) ttftVal w0
      = (⟨false, ds.chunks ++ [c], some ttftVal⟩,
         (writerWrite tr strf errS { data := SSEData.chunk c } ds.w).2) := by
  have httft : (if stMid.ttft.isNone then some ttftVal else stMid.ttft)
      = some ttftVal := by
    have h0 : stMid.ttft = none ∨ stMid.ttft = some ttftVal := by
      rw [← hmid]
      exact relayReads_ttft_inv tr parse strf errS ttftVal reads0 _ (Or.inl rfl)
    rcases h0 with h | h <;> rw [h] <;> rfl
  have hmd : ¬ stMid.disconnected = true := by
    rw [hmdisc]; exact Bool.false_ne_true
  have hdd : ¬ ds.disconnected = true := by
    rw [hdsdisc]; exact Bool.false_ne_true
  have hff : ¬ (writerWrite tr strf errS { data := SSEData.chunk c } ds.w).1
      = true := by
    rw [hfail]; exact Bool.false_ne_true
  simp only [streamProviderResponse]
  rw [relayReads_append tr parse strf errS ttftVal reads0
    (mkLinesRead (ps ++ p :: qs) :: rest) ⟨[], w0, [], none, false⟩ rfl]
  rw [hmid]
  rw [if_neg hmd]
  simp only [relayReads]
  rw [hmbuf]
  simp only [List.nil_append]
  rw [splitNl_mkLinesRead (ps ++ p :: qs) hnl]
  rw [List.dropLast_concat, List.getLastD_concat]
  simp only [List.map_append, List.map_cons]
  rw [processLines_append tr parse strf errS (ps.map dLine)
    (dLine p :: qs.map dLine) stMid.w stMid.chunks]
  rw [hds]
  rw [if_neg hdd]
  rw [processLines_cons_parsed tr parse strf errS p c (qs.map dLine) ds.w
    ds.chunks hp hpd]
  rw [if_neg hff]
  rw [httft]
  rfl

/-- Witness for C4: the second chunk's write fails (transport accepts only
the first write), with a third line already in the buffer. -/
theorem streamProviderResponse_stops_on_disconnect_witness :
    streamProviderResponse trFirstOnly demoParse demoStrf demoErrStringify
        (.body (mkLinesRead ["1".toList, "2".toList, "3".toList] :: []) none) 7
        WriterState.init
      = (⟨false, [1, 2], some 7⟩,
         { writeCalls := 2,
           attempts := [frameOf demoStrf demoErrStringify { data := SSEData.chunk 1 },
                        frameOf demoStrf demoErrStringify { data := SSEData.chunk 2 }],
           sent := [frameOf demoStrf demoErrStringify { data := SSEData.chunk 1 }],
           ended := false, closed := true }) :=
  streamProviderResponse_stops_on_disconnect trFirstOnly demoParse demoStrf
    demoErrStringify [] ["1".toList] ["3".toList] [] "2".toList 2 none 7
    WriterState.init ⟨[], WriterState.init, [], none, false⟩
    ⟨{ writeCalls := 1,
       attempts := [frameOf demoStrf demoErrStringify { data := SSEData.chunk 1 }],
       sent := [frameOf demoStrf demoErrStringify { data := SSEData.chunk 1 }],
       ended := false, closed := false }, [1], false⟩
    (by decide) (by decide) (by decide) rfl rfl rfl rfl rfl (by decide)

/-- C8: a `data:` line whose payload does not parse as JSON is skipped
silently: removing it from the line stream changes nothing, so the relay
neither aborts nor reports an error for it, and the valid chunks before
and after it appear in the returned sequence in their original order; the
same holds at the level of a whole `streamProviderResponse` run. -/
theorem streamProviderResponse_skips_invalid_json {α : Type} (tr : Transport)
    (parse : Str → Option α) (strf : α → Str) (errS : Str → Option Nat → Str)
    (bad : Str) (hbad : parse bad = none) :
    (∀ (pre post : List Str) (w : WriterState) (cs : List α),
      processLines tr parse strf errS (pre ++ dLine bad :: post) w cs
        = processLines tr parse strf errS (pre ++ post) w cs) ∧
    (∀ (ps1 ps2 : List Str) (ttftVal : Nat) (w0 : WriterState),
      (∀ p ∈ ps1 ++ ps2, '\n' ∉ p) → '\n' ∉ bad →
      streamProviderResponse tr parse strf errS
          (.body [mkLinesRead (ps1 ++ bad :: ps2)] none) ttftVal w0
        = streamProviderResponse tr parse strf errS
            (.body [mkLinesRead (ps1 ++ ps2)] none) ttftVal w0) := by
  have hinv : ∀ (pre post : List Str) (w : WriterState) (cs : List α),
      processLines tr parse strf errS (pre ++ dLine bad :: post) w cs
        = processLines tr parse strf errS (pre ++ post) w cs := by
    intro pre
    induction pre with
    | nil =>
        intro post w cs
        simp only [List.nil_append]
        exact processLines_cons_unparsed tr parse strf errS bad post w cs hbad
    | cons l pre ih =>
        intro post w cs
        simp only [List.cons_append, List.append_eq, processLines]
        by_cases hpre : dataLinePrefix.isPrefixOf l = true
        · rw [if_pos hpre, if_pos hpre]
          by_cases hdone : l.drop 6 = doneLit
          · rw [if_pos hdone, if_pos hdone]; exact ih post w cs
          · rw [if_neg hdone, if_neg hdone]
            cases hp : parse (l.drop 6) with
            | some parsed =>
                dsimp only
                by_cases hr : (writerWrite tr strf errS
                    { data := SSEData.chunk parsed } w).1 = true
                · rw [if_pos hr, if_pos hr]; exact ih post _ _
                · rw [if_neg hr, if_neg hr]
            | none => exact ih post w cs
        · rw [if_neg hpre, if_neg hpre]; exact ih post w cs
  refine ⟨hinv, fun ps1 ps2 ttftVal w0 hnl hnb => ?_⟩
  have hsplit1 : splitNl (mkLinesRead (ps1 ++ bad :: ps2))
      = (ps1 ++ bad :: ps2).map dLine ++ [[]] := by
    apply splitNl_mkLinesRead
    intro q hq
    rcases List.mem_append.mp hq with h | h
    · exact hnl q (List.mem_append_left _ h)
    · rcases List.mem_cons.mp h with rfl | h2
      · exact hnb
      · exact hnl q (List.mem_append_right _ h2)
  have hsplit2 : splitNl (mkLinesRead (ps1 ++ ps2))
      = (ps1 ++ ps2).map dLine ++ [[]] := splitNl_mkLinesRead _ hnl
  simp only [streamProviderResponse, relayReads, List.nil_append]
  rw [hsplit1, hsplit2, List.dropLast_concat, List.dropLast_concat,
    List.getLastD_concat, List.getLastD_concat]
  simp only [List.map_append, List.map_cons]
  rw [hinv (ps1.map dLine) (ps2.map dLine) w0 []]

/-- Witness for C8: an unparsable payload between two valid ones leaves
the whole relay run unchanged. -/
theorem streamProviderResponse_skips_invalid_json_witness :
    streamProviderResponse trAcceptAll demoParse demoStrf demoErrStringify
        (.body [mkLinesRead ["1".toList, "x".toList, "2".toList]] none) 3
        WriterState.init
      = streamProviderResponse trAcceptAll demoParse demoStrf demoErrStringify
          (.body [mkLinesRead ["1".toList, "2".toList]] none) 3
          WriterState.init :=
  (streamProviderResponse_skips_invalid_json trAcceptAll demoParse demoStrf
    demoErrStringify "x".toList (by decide)).2 ["1".toList] ["2".toList] 3
    WriterState.init (by decide) (by decide)

/-- C10: a `data: [DONE]` line arriving mid-stream does not terminate the
relay: it is skipped and everything after it is processed exactly as if
the sentinel line were absent — later valid lines are still parsed,
collected and forwarded; the same holds for a whole
`streamProviderResponse` run. -/
theorem streamProviderResponse_done_midstream_continues {α : Type}
    (tr : Transport) (parse : Str → Option α) (strf : α → Str)
    (errS : Str → Option Nat → Str) :
    (∀ (pre post : List Str) (w : WriterState) (cs : List α),
      processLines tr parse strf errS (pre ++ dLine doneLit :: post) w cs
        = processLines tr parse strf errS (pre ++ post) w cs) ∧
    (∀ (ps1 ps2 : List Str) (ttftVal : Nat) (w0 : WriterState),
      (∀ p ∈ ps1 ++ ps2, '\n' ∉ p) →
      streamProviderResponse tr parse strf errS
          (.body [mkLinesRead (ps1 ++ doneLit :: ps2)] none) ttftVal w0
        = streamProviderResponse tr parse strf errS
            (.body [mkLinesRead (ps1 ++ ps2)] none) ttftVal w0) := by
  have hinv : ∀ (pre post : List Str) (w : WriterState) (cs : List α),
      processLines tr parse strf errS (pre ++ dLine doneLit :: post) w cs
        = processLines tr parse strf errS (pre ++ post) w cs := by
    intro pre
    induction pre with
    | nil =>
        intro post w cs
        simp only [List.nil_append]
        exact processLines_cons_done tr parse strf errS post w cs
    | cons l pre ih =>
        intro post w cs
        simp only [List.cons_append, List.append_eq, processLines]
        by_cases hpre : dataLinePrefix.isPrefixOf l = true
        · rw [if_pos hpre, if_pos hpre]
          by_cases hdone : l.drop 6 = doneLit
          · rw [if_pos hdone, if_pos hdone]; exact ih post w cs
          · rw [if_neg hdone, if_neg hdone]
            cases hp : parse (l.drop 6) with
            | some parsed =>
                dsimp only
                by_cases hr : (writerWrite tr strf errS
                    { data := SSEData.chunk parsed } w).1 = true
                · rw [if_pos hr, if_pos hr]; exact ih post _ _
                · rw [if_neg hr, if_neg hr]
            | none => exact ih post w cs
        · rw [if_neg hpre, if_neg hpre]; exact ih post w cs
  refine ⟨hinv, fun ps1 ps2 ttftVal w0 hnl => ?_⟩
  have hsplit1 : splitNl (mkLinesRead (ps1 ++ doneLit :: ps2))
      = (ps1 ++ doneLit :: ps2).map dLine ++ [[]] := by
    apply splitNl_mkLinesRead
    intro q hq
    rcases List.mem_append.mp hq with h | h
    · exact hnl q (List.mem_append_left _ h)
    · rcases List.mem_cons.mp h with rfl | h2
      · decide
      · exact hnl q (List.mem_append_right _ h2)
  have hsplit2 : splitNl (mkLinesRead (ps1 ++ ps2))
      = (ps1 ++ ps2).map dLine ++ [[]] := splitNl_mkLinesRead _ hnl
  simp only [streamProviderResponse, relayReads, List.nil_append]
  rw [hsplit1, hsplit2, List.dropLast_concat, List.dropLast_concat,
    List.getLastD_concat, List.getLastD_concat]
  simp only [List.map_append, List.map_cons]
  rw [hinv (ps1.map dLine) (ps2.map dLine) w0 []]

/-- Witness for C10: a mid-stream `[DONE]` between two valid lines leaves
the whole relay run unchanged, so the later chunk is still delivered. -/
theorem streamProviderResponse_done_midstream_continues_witness :
    streamProviderResponse trAcceptAll demoParse demoStrf demoErrStringify
        (.body [mkLinesRead ["1".toList, doneLit, "2".toList]] none) 3
        WriterState.init
      = streamProviderResponse trAcceptAll demoParse demoStrf demoErrStringify
          (.body [mkLinesRead ["1".toList, "2".toList]] none) 3
          WriterState.init :=
  (streamProviderResponse_done_midstream_continues trAcceptAll demoParse
    demoStrf demoErrStringify).2 ["1".toList] ["2".toList] 3
    WriterState.init (by decide)

/-!
`aggregateStreamingResponse`: chunks are embedded by the shape the
aggregator inspects — an `Option` field is `some` exactly when the
corresponding JavaScript guard (`typeof`/truthiness/`Array.isArray`)
accepts the value.
-/

/-- The `usage` object of a chunk; a field is `some` when it is a number. -/
structure UsageRaw where
  prompt_tokens : Option Int
  completion_tokens : Option Int
  total_tokens : Option Int
deriving DecidableEq, Repr

/-- The aggregated `usage` output. -/
structure UsageOut where
  prompt_tokens : Int
  completion_tokens : Int
  total_tokens : Int
deriving DecidableEq, Repr

/-- A `delta` object; `content` is `some` when it is a string. -/
structure Delta where
  content : Option Str
deriving DecidableEq, Repr

/-- A streaming choice; `delta` is `some` when it is a truthy object,
`finish_reason` is `some` when it is a string. -/
structure Choice where
  delta : Option Delta
  finish_reason : Option Str
deriving DecidableEq, Repr

/-- The fields of an object chunk that the aggregator reads. -/
structure ChunkObj where
  model : Option Str
  choices : Option (List Choice)
  usage : Option UsageRaw
deriving DecidableEq, Repr

/-- A streamed chunk: an object, or any non-object value (skipped). -/
inductive AggChunk where
  | obj (o : ChunkObj)
  | nonObj
deriving DecidableEq, Repr

/-- The aggregator's running result. -/
structure AggResult where
  content : Str
  usage : Option UsageOut
  model : Option Str
  finish_reason : Option Str
deriving DecidableEq, Repr

/-- One iteration of the aggregation loop over a chunk. -/
def aggStep (st : AggResult) (ch : AggChunk) : AggResult :=
  match ch with
  | .nonObj => st
  | .obj c =>
      let st1 :=
        match c.model with
        | some m => if m ≠ [] then { st with model := some m } else st
        | none => st
      let st2 :=
        match c.choices with
        | some (choice :: _) =>
            let stA :=
              match choice.delta with
              | some d =>
                  match d.content with
                  | some s => { st1 with content := st1.content ++ s }
                  | none => st1
              | none => st1
            match choice.finish_reason with
            | some fr => if fr ≠ [] then { stA with finish_reason := some fr } else stA
            | none => stA
        | _ => st1
      match c.usage with
      | some u =>
          match u.prompt_tokens, u.completion_tokens with
          | some p, some ct =>
              { st2 with usage := some ⟨p, ct, u.total_tokens.getD (p + ct)⟩ }
          | _, _ => st2
      | none => st2

/-- `aggregateStreamingResponse`: fold the aggregation step over the chunk
sequence starting from the empty result. -/
def aggregateStreamingResponse (chunks : List AggChunk) : AggResult :=
  chunks.foldl aggStep ⟨[], none, none, none⟩

/-- A chunk of shape `{choices: [{delta: {content: fragment}}]}`. -/
def contentChunk (f : Str) : AggChunk :=
  .obj ⟨none, some [⟨some ⟨some f⟩, none⟩], none⟩

theorem aggStep_contentChunk (st : AggResult) (f : Str) :
    aggStep st (contentChunk f) = { st with content := st.content ++ f } := rfl

theorem foldl_contentChunk_append :
    ∀ (frags : List Str) (st : AggResult),
      (List.foldl aggStep st (frags.map contentChunk)).content
        = st.content ++ frags.flatten := by
  intro frags
  induction frags with
  | nil => intro st; simp
  | cons f fs ih =>
      intro st
      simp only [List.map_cons, List.foldl_cons, aggStep_contentChunk, ih,
        List.flatten_cons]
      rw [List.append_assoc]

/-- C3: for every string `S` and every way of splitting `S` into ordered
delta fragments packaged as `{choices: [{delta: {content: fragment}}]}`
chunks, the aggregator's `content` is exactly `S`: reconstruction is
invariant under how the fragments are split across chunks. -/
theorem aggregateStreamingResponse_roundtrip (S : Str) (frags : List Str)
    (h : frags.flatten = S) :
    (aggregateStreamingResponse (frags.map contentChunk)).content = S := by
  unfold aggregateStreamingResponse
  rw [foldl_contentChunk_append frags ⟨[], none, none, none⟩]
  simpa using h

/-- Witness for C3: two different splittings of `"hello"` both rebuild it. -/
theorem aggregateStreamingResponse_roundtrip_witness :
    (aggregateStreamingResponse
      (["he".toList, "llo".toList].map contentChunk)).content = "hello".toList ∧
    (aggregateStreamingResponse
      (["h".toList, "ell".toList, "o".toList].map contentChunk)).content
      = "hello".toList :=
  ⟨aggregateStreamingResponse_roundtrip "hello".toList
      ["he".toList, "llo".toList] (by decide),
   aggregateStreamingResponse_roundtrip "hello".toList
      ["h".toList, "ell".toList, "o".toList] (by decide)⟩
